import Mathlib

/-!
Shallow embedding of the celeritas retrieval-augmented chat service
(`src/app`), together with theorems settling the spec's claims about
the retrieval tool, the chat attribution path, document upload, and the
conversation routes.

Python strings are modelled as Lean `String` (a structure over
`List Char`); `str.split("/")` is modelled character by character by
`splitSlash`.  Database sessions are modelled as explicit record states;
a `commit` is a pure state transition, and the sequence of committed
states a handler produces is returned as an explicit trace.
-/

namespace Celeritas

/-! ## String helpers: Python `s.split("/")` and `[-1]` -/

/-- Character-level model of Python `s.split("/")`: splits a character
list at every `'/'`, keeping empty segments, and always returns at least
one segment (Python `"".split("/") == [""]`). -/
def splitSlash : List Char → List (List Char)
  | [] => [[]]
  | c :: cs =>
    match splitSlash cs with
    | [] => [[c]]
    | p :: ps => if c = '/' then [] :: p :: ps else (c :: p) :: ps

/-- Model of Python `s.split("/")[-1]`: the last path component. -/
def lastPart (s : String) : String :=
  ⟨(splitSlash s.data).getLastD []⟩

/-! ## Vector store and the retrieval tool (`core/document.py`, `core/agent.py`) -/

/-- A retrieved chunk as seen by `retrieve_context`: the `page_content`
plus an optional `"source"` metadata entry (`none` models a metadata
dict without the key, making `metadata.get("source", "unknown")` return
the fallback). -/
structure RetrievedDoc where
  source : Option String
  page_content : String
deriving DecidableEq, Repr

/-- The vector store state visible to `retrieve_context`: the set of
stored chunks (`store.get()["ids"]` is nonempty exactly when `chunks`
is). -/
structure VectorStore where
  chunks : List RetrievedDoc
deriving Repr

/-- Model of `VectorStore.is_empty` (`core/document.py`): true iff the collection
holds no ids. -/
def VectorStore.is_empty (vs : VectorStore) : Bool :=
  vs.chunks.isEmpty

/-- The fixed advisory string returned by `retrieve_context` on an empty
store. -/
def emptyStoreAdvisory : String :=
  "The document vector store is currently empty. Notify the user and suggest to upload documents."

/-- Model of `doc.metadata.get("source", "unknown").split("/")[-1]` from
`retrieve_context`. -/
def sourceFilename (d : RetrievedDoc) : String :=
  lastPart (d.source.getD "unknown")

/-- One serialized retrieval block:
`f"Source: {source_filename}\nContent: {doc.page_content}"`. -/
def serializeDoc (d : RetrievedDoc) : String :=
  "Source: " ++ sourceFilename d ++ "\nContent: " ++ d.page_content

/-- Result of one `retrieve_context` call: the returned string plus the
list of `similarity_search` invocations that were made (query and `k`),
so that "never calls search" is expressible. -/
structure RetrievalResult where
  output : String
  searchCalls : List (String × Nat)
deriving DecidableEq, Repr

/-- Model of `RAGAgent.retrieve_context` (`core/agent.py`): on an empty store
return the fixed advisory (an ordinary string value, not an error);
otherwise run `similarity_search(query, k=4)` — modelled by the `search`
oracle — and join the serialized blocks with a blank-line separator. -/
def retrieveContext (vs : VectorStore)
    (search : String → Nat → List RetrievedDoc) (query : String) :
    RetrievalResult :=
  if vs.is_empty then
    ⟨emptyStoreAdvisory, []⟩
  else
    ⟨String.intercalate "\n\n" ((search query 4).map serializeDoc),
      [(query, 4)]⟩

/-! ## Relational rows (`models.py`) and the chat route (`api/routes/chat.py`) -/

/-- A `Document` row: integer primary key and unique filename. -/
structure Document where
  id : Nat
  filename : String
deriving DecidableEq, Repr

/-- An `Interaction` row (question, answer; timestamps and latency are
not claim-relevant and are omitted). -/
structure Interaction where
  id : Nat
  question : String
  answer : String
deriving DecidableEq, Repr

/-- An `InteractionDocument` junction row.  In `models.py` the pair
`(interaction_id, document_id)` is the composite primary key. -/
structure InteractionDocument where
  interaction_id : Nat
  document_id : Nat
  usage_order : Nat
deriving DecidableEq, Repr

/-- The agent's structured output (`OutputSchema` in `core/agent.py`). -/
structure OutputSchema where
  answer : String
  used_documents : List String
deriving DecidableEq, Repr

/-- The `MessageResponse` returned by the `/message` route. -/
structure MessageResponse where
  answer : String
  interaction_id : Nat
  source_documents : List String
deriving DecidableEq, Repr

/-- Committed database state as seen by the chat route. -/
structure ChatDB where
  documents : List Document
  interactions : List Interaction
  links : List InteractionDocument
deriving DecidableEq, Repr

/-- Model of `select(Document).where(Document.filename == name)` followed by
`.first()`. -/
def findDocument (docs : List Document) (name : String) : Option Document :=
  docs.find? (fun d => d.filename == name)

/-- The attribution loop of the `/message` route
(`chat.py` lines 56–77): walk `used_documents` with `enumerate(...,
start=1)`; a name with a matching `Document` row produces an
`InteractionDocument` (with `usage_order` the 1-based index) and is
appended to `used_document_filenames`; an unmatched name only logs a
warning.  Returns (new junction rows, accepted filenames). -/
def attribution (docs : List Document) (iid : Nat) :
    Nat → List String → List InteractionDocument × List String
  | _, [] => ([], [])
  | idx, name :: rest =>
    let r := attribution docs iid (idx + 1) rest
    match findDocument docs name with
    | some d => (⟨iid, d.id, idx⟩ :: r.1, name :: r.2)
    | none => r

/-- Decides whether a list of `(interaction_id, document_id)` keys is
duplicate-free. -/
def keysNodup : List (Nat × Nat) → Bool
  | [] => true
  | k :: ks => decide (k ∉ ks) && keysNodup ks

/-- SQLite's admission check when flushing new `InteractionDocument`
rows: the inserted composite keys must be pairwise distinct and absent
from the already-committed rows, since `models.py` declares
`(interaction_id, document_id)` as the table's composite primary key. -/
def insertOK (olds news : List (Nat × Nat)) : Bool :=
  keysNodup news && news.all (fun k => decide (k ∉ olds))

/-- Errors the `/message` route can surface: the catch-all wrapper
around agent failure (`HTTPException(500, "Agent failed to process
query: ...")`), or a database integrity failure when a commit violates
the `InteractionDocument` composite primary key. -/
inductive MessageError where
  | agentFailure (detail : String)
  | integrityError
deriving DecidableEq, Repr

/-- The `/message` route (`chat.py`).  The agent call is modelled by its
result `agentResult` (an exception or an `OutputSchema`); `nid` is the
primary key the database assigns to the new `Interaction`.  Returns the
route's outcome together with the trace of committed states:

* agent failure → wrapped error, nothing committed (the exception is
  raised before any `db.add`);
* otherwise the `Interaction` row is committed on its own first
  (`db.commit()` at line 52);
* if `used_documents` is empty the route returns without a second
  commit; otherwise the attribution loop's junction rows are committed
  second (`db.commit()` at line 77), which fails with an integrity
  error if it would duplicate a composite key. -/
def message (db : ChatDB) (question : String)
    (agentResult : Except String OutputSchema) (nid : Nat) :
    Except MessageError MessageResponse × List ChatDB :=
  match agentResult with
  | .error e => (.error (.agentFailure ("Agent failed to process query: " ++ e)), [])
  | .ok out =>
    let db1 : ChatDB :=
      { db with interactions := db.interactions ++ [⟨nid, question, out.answer⟩] }
    if out.used_documents.isEmpty then
      (.ok ⟨out.answer, nid, []⟩, [db1])
    else
      let r := attribution db.documents nid 1 out.used_documents
      if insertOK (db1.links.map fun l => (l.interaction_id, l.document_id))
          (r.1.map fun l => (l.interaction_id, l.document_id)) then
        (.ok ⟨out.answer, nid, r.2⟩,
          [db1, { db1 with links := db1.links ++ r.1 }])
      else
        (.error .integrityError, [db1])

/-- The database state after a handler finishes: the last committed
state, or the initial state when nothing was committed. -/
def finalState (db : ChatDB) (trace : List ChatDB) : ChatDB :=
  trace.getLastD db

/-! ## Document upload (`api/routes/documents.py`) -/

/-- An uploaded file as the route sees it: filename and content type.
The raw bytes only matter through the processing oracle below. -/
structure UploadFile where
  filename : String
  content_type : String
deriving DecidableEq, Repr

/-- A chunk written to the vector index by `process_pdf` (source
filename and text). -/
structure VectorChunk where
  source : String
  content : String
deriving DecidableEq, Repr

/-- One entry of `failed_uploads`: filename and error message. -/
structure FailedUpload where
  filename : String
  error : String
deriving DecidableEq, Repr

/-- The `UploadResponse` of the route: successfully ingested `Document`
rows and the itemized failures. -/
structure UploadResponse where
  successful_uploads : List Document
  failed_uploads : List FailedUpload
deriving DecidableEq, Repr

/-- First pass of `upload_documents` (lines 44–79): reject non-PDF
content types and filenames already present; otherwise save the file and
`db.add` a new `Document` row.  The duplicate lookup runs through the
session, whose autoflush makes rows added earlier in this very batch
visible, so the accumulator `db` grows with each accepted file.  `nid`
is the next primary key the flush assigns.  Returns
(`failed_uploads` entries, pending `Document` rows), both in file
order. -/
def firstPass (db : List Document) (nid : Nat) :
    List UploadFile → List FailedUpload × List Document
  | [] => ([], [])
  | f :: fs =>
    if f.content_type = "application/pdf" then
      if (db.map Document.filename).contains f.filename then
        let r := firstPass db nid fs
        (⟨f.filename, "Document with this filename already exists."⟩ :: r.1, r.2)
      else
        let r := firstPass (db ++ [⟨nid, f.filename⟩]) (nid + 1) fs
        (r.1, ⟨nid, f.filename⟩ :: r.2)
    else
      let r := firstPass db nid fs
      (⟨f.filename, "Only PDF files are allowed."⟩ :: r.1, r.2)

/-- Final state of one `upload_documents` call: the response, the
committed `Document` rows and the vector index contents. -/
structure UploadOutcome where
  response : UploadResponse
  documents : List Document
  chunks : List VectorChunk
deriving DecidableEq, Repr

/-- The `asyncio.gather(*processing_tasks, return_exceptions=True)`
step: one `(Document, outcome)` pair per pending row, in order —
`process` is the per-file `vector_store.process_pdf` oracle, returning
the chunks it indexes on success or the exception message on failure. -/
def uploadResults (process : String → Except String (List VectorChunk))
    (pending : List Document) :
    List (Document × Except String (List VectorChunk)) :=
  pending.map (fun d => (d, process d.filename))

/-- The `Document` rows whose processing succeeded
(`successful_uploads`). -/
def okDocs (rs : List (Document × Except String (List VectorChunk))) :
    List Document :=
  rs.filterMap fun p =>
    match p.2 with
    | .ok _ => some p.1
    | .error _ => none

/-- The `failed_uploads` entries appended in the cleanup loop. -/
def errEntries (rs : List (Document × Except String (List VectorChunk))) :
    List FailedUpload :=
  rs.filterMap fun p =>
    match p.2 with
    | .error e => some ⟨p.1.filename, "Failed to process PDF: " ++ e⟩
    | .ok _ => none

/-- The primary keys of the `Document` rows rolled back
(`db.delete(db_document)`) in the cleanup loop. -/
def errIds (rs : List (Document × Except String (List VectorChunk))) :
    List Nat :=
  rs.filterMap fun p =>
    match p.2 with
    | .error _ => some p.1.id
    | .ok _ => none

/-- All chunks the successful processing tasks added to the vector
index. -/
def okChunks (rs : List (Document × Except String (List VectorChunk))) :
    List VectorChunk :=
  (rs.filterMap fun p =>
    match p.2 with
    | .ok cs => some cs
    | .error _ => none).flatten

/-- Model of `upload_documents` (`documents.py` lines 33–121).  `db` and `vs` are
the committed `Document` rows and vector index before the call.  After
the first pass: if no file survived, return at once; otherwise commit
the pending `Document` rows, run all processing tasks, then for each
failed task append a `failed_uploads` entry and `db.delete` only that
task's `Document` row, and commit again. -/
def uploadDocuments (db : List Document) (vs : List VectorChunk)
    (files : List UploadFile)
    (process : String → Except String (List VectorChunk)) (nid : Nat) :
    UploadOutcome :=
  let fp := firstPass db nid files
  if fp.2.isEmpty then
    ⟨⟨[], fp.1⟩, db, vs⟩
  else
    let rs := uploadResults process fp.2
    ⟨⟨okDocs rs, fp.1 ++ errEntries rs⟩,
      (db ++ fp.2).filter (fun d => !((errIds rs).contains d.id)),
      vs ++ okChunks rs⟩

/-! ## Conversation routes (`api/routes/conversations.py`) -/

/-- A `Conversation` row: string id, owning user id, title, and the
`updated_at` timestamp (modelled as a Nat tick). -/
structure Conversation where
  id : String
  user_id : Nat
  title : String
  updated_at : Nat
deriving DecidableEq, Repr

/-- The public projection returned by the conversation routes. -/
structure ConversationPublic where
  id : String
  title : String
  updated_at : Nat
deriving DecidableEq, Repr

/-- The only outward-facing failure of the conversation routes:
`HTTPException(status_code=404, detail=...)`. -/
inductive ConvError where
  | notFound (status : Nat) (detail : String)
deriving DecidableEq, Repr

/-- The uniform error every ownership/existence check raises. -/
def conversationNotFound : ConvError :=
  .notFound 404 "Conversation not found"

/-- Model of `db.get(Conversation, conversation_id)`. -/
def findConversation (db : List Conversation) (cid : String) :
    Option Conversation :=
  db.find? (fun c => c.id == cid)

/-- The `ConversationPublic` projection of a row. -/
def Conversation.toPublic (c : Conversation) : ConversationPublic :=
  ⟨c.id, c.title, c.updated_at⟩

/-- The get-conversation route: missing row or foreign owner both raise
the same 404. -/
def getConversation (db : List Conversation) (cid : String) (uid : Nat) :
    Except ConvError ConversationPublic :=
  match findConversation db cid with
  | none => .error conversationNotFound
  | some c =>
    if c.user_id ≠ uid then .error conversationNotFound
    else .ok c.toPublic

/-- The delete-conversation route: same ownership check; on success the
row is deleted and the new table state returned. -/
def deleteConversation (db : List Conversation) (cid : String) (uid : Nat) :
    Except ConvError (List Conversation) :=
  match findConversation db cid with
  | none => .error conversationNotFound
  | some c =>
    if c.user_id ≠ uid then .error conversationNotFound
    else .ok (db.filter (fun x => !(x.id == c.id)))

/-- The update-conversation route: same ownership check; on success the
title is replaced (when one is given) and `updated_at` refreshed. -/
def updateConversation (db : List Conversation) (cid : String) (uid : Nat)
    (title : Option String) (now : Nat) :
    Except ConvError ConversationPublic :=
  match findConversation db cid with
  | none => .error conversationNotFound
  | some c =>
    if c.user_id ≠ uid then .error conversationNotFound
    else
      match title with
      | some t => .ok ⟨c.id, t, now⟩
      | none => .ok c.toPublic

/-- A message of the stored conversation history, as the transcript
filter distinguishes them: `HumanMessage`, `AIMessage` (content plus the
tool calls it requests), `ToolMessage`. -/
inductive ChatMsg where
  | human (content : String)
  | ai (content : String) (tool_calls : List String)
  | tool (content : String)
deriving DecidableEq, Repr

/-- One entry of the transcript returned by
`GET /{conversation_id}/messages`. -/
structure TranscriptEntry where
  role : String
  content : String
deriving DecidableEq, Repr

/-- The filter loop of `get_conversation_messages` (lines 102–112):
`HumanMessage` → user entry; `AIMessage` kept as assistant entry iff its
content is truthy (non-empty); `ToolMessage` skipped. -/
def transcript : List ChatMsg → List TranscriptEntry
  | [] => []
  | .human c :: rest => ⟨"user", c⟩ :: transcript rest
  | .ai c _ :: rest =>
    if c = "" then transcript rest else ⟨"assistant", c⟩ :: transcript rest
  | .tool _ :: rest => transcript rest

/-- The get-conversation-messages route: the ownership check of the other
routes, then the transcript of the checkpointer history for this
conversation id (`history` models `agent.get_history`). -/
def getConversationMessages (db : List Conversation) (cid : String)
    (uid : Nat) (history : String → List ChatMsg) :
    Except ConvError (List TranscriptEntry) :=
  match findConversation db cid with
  | none => .error conversationNotFound
  | some c =>
    if c.user_id ≠ uid then .error conversationNotFound
    else .ok (transcript (history cid))

/-- The transcript contract as amended: keep the user messages and the
assistant messages with non-empty content, in history order; drop every
tool-result message and every assistant message with empty content (the
typical pure tool-call step).  Stated independently of `transcript` so
the route's filter can be proved to refine it. -/
def transcriptSpec (h : List ChatMsg) : List TranscriptEntry :=
  h.filterMap fun m =>
    match m with
    | .human c => some ⟨"user", c⟩
    | .ai c _ => if c = "" then none else some ⟨"assistant", c⟩
    | .tool _ => none

/-- Concrete two-file batch used as the upload witness. -/
def uploadFilesW : List UploadFile :=
  [⟨"a.pdf", "application/pdf"⟩, ⟨"b.pdf", "application/pdf"⟩]

/-- Concrete processing oracle for the upload witness: `a.pdf` indexes
one chunk, `b.pdf` fails to embed. -/
def uploadOracleW : String → Except String (List VectorChunk) :=
  fun n => if n == "a.pdf" then .ok [⟨"a.pdf", "c1"⟩] else .error "boom"

/-! ## Helper lemmas -/

theorem splitSlash_ne_nil (l : List Char) : splitSlash l ≠ [] := by
  cases l with
  | nil => simp [splitSlash]
  | cons c cs =>
    simp only [splitSlash]
    cases splitSlash cs with
    | nil => simp
    | cons p ps =>
      by_cases h : c = '/'
      · simp [h]
      · simp [h]

theorem splitSlash_no_slash (l : List Char) (h : '/' ∉ l) :
    splitSlash l = [l] := by
  induction l with
  | nil => rfl
  | cons c cs ih =>
    simp only [List.mem_cons, not_or] at h
    simp only [splitSlash, ih h.2]
    have hc : ¬ c = '/' := fun hc => h.1 hc.symm
    simp [hc]

theorem splitSlash_append_length (xs ys : List Char) :
    2 ≤ (splitSlash (xs ++ '/' :: ys)).length := by
  induction xs with
  | nil =>
    simp only [List.nil_append, splitSlash]
    cases hys : splitSlash ys with
    | nil => exact absurd hys (splitSlash_ne_nil ys)
    | cons p ps => simp
  | cons x xs ih =>
    simp only [List.cons_append, splitSlash]
    cases hxs : splitSlash (xs ++ '/' :: ys) with
    | nil => exact absurd hxs (splitSlash_ne_nil _)
    | cons p ps =>
      rw [hxs] at ih
      by_cases hx : x = '/'
      · simp [hx]
      · simp only [hx, if_false]
        simpa using ih

theorem splitSlash_append_last (xs ys : List Char) :
    (splitSlash (xs ++ '/' :: ys)).getLastD [] =
      (splitSlash ys).getLastD [] := by
  induction xs with
  | nil =>
    simp only [List.nil_append, splitSlash]
    cases hys : splitSlash ys with
    | nil => exact absurd hys (splitSlash_ne_nil ys)
    | cons p ps => simp
  | cons x xs ih =>
    cases hxs : splitSlash (xs ++ '/' :: ys) with
    | nil => exact absurd hxs (splitSlash_ne_nil _)
    | cons p ps =>
      rw [hxs] at ih
      have hlen : 2 ≤ (p :: ps).length := by
        have := splitSlash_append_length xs ys
        rw [hxs] at this
        exact this
      cases ps with
      | nil => simp at hlen
      | cons q qs =>
        simp only [List.cons_append, splitSlash, List.append_eq, hxs]
        by_cases hx : x = '/'
        · subst hx
          rw [if_pos rfl, List.getLastD_cons]
          exact ih
        · rw [if_neg hx, List.getLastD_cons, List.getLastD_cons]
          rw [List.getLastD_cons, List.getLastD_cons] at ih
          exact ih

/-- A separator-free string is its own last path component. -/
theorem lastPart_no_slash (f : String) (hf : '/' ∉ f.data) :
    lastPart f = f := by
  show String.mk ((splitSlash f.data).getLastD []) = f
  rw [splitSlash_no_slash f.data hf]
  rfl

theorem lastPart_eq (s f : String) (pre : List Char)
    (h : s.data = pre ++ '/' :: f.data) (hf : '/' ∉ f.data) :
    lastPart s = f := by
  unfold lastPart
  rw [h, splitSlash_append_last, splitSlash_no_slash f.data hf]
  rfl

theorem findDocument_spec (docs : List Document) (name : String)
    (d : Document) (h : findDocument docs name = some d) :
    d ∈ docs ∧ d.filename = name := by
  unfold findDocument at h
  refine ⟨List.mem_of_find?_eq_some h, ?_⟩
  have hp := List.find?_some h
  simpa using hp

theorem attribution_accepted (docs : List Document) (iid : Nat) :
    ∀ (idx : Nat) (claimed : List String),
      (attribution docs iid idx claimed).2 =
        claimed.filter (fun n => (findDocument docs n).isSome)
  | _, [] => rfl
  | idx, name :: rest => by
    have ih := attribution_accepted docs iid (idx + 1) rest
    simp only [attribution]
    cases h : findDocument docs name with
    | none => simp [h, ih, List.filter_cons]
    | some d => simp [h, ih, List.filter_cons]

theorem attribution_links_sound (docs : List Document) (iid : Nat) :
    ∀ (idx : Nat) (claimed : List String),
      ∀ l ∈ (attribution docs iid idx claimed).1,
        l.interaction_id = iid ∧
        ∃ n ∈ claimed, ∃ d, findDocument docs n = some d ∧
          l.document_id = d.id
  | _, [], l, hl => by simp [attribution] at hl
  | idx, name :: rest, l, hl => by
    have ih := attribution_links_sound docs iid (idx + 1) rest
    simp only [attribution] at hl
    cases h : findDocument docs name with
    | none =>
      rw [h] at hl
      obtain ⟨h1, n, hn, hrest⟩ := ih l hl
      exact ⟨h1, n, List.mem_cons_of_mem _ hn, hrest⟩
    | some d =>
      rw [h] at hl
      rcases List.mem_cons.mp hl with hl | hl
      · subst hl
        exact ⟨rfl, name, List.mem_cons_self name rest, d, h, rfl⟩
      · obtain ⟨h1, n, hn, hrest⟩ := ih l hl
        exact ⟨h1, n, List.mem_cons_of_mem _ hn, hrest⟩

theorem attribution_keys (docs : List Document) (iid : Nat) :
    ∀ (idx : Nat) (claimed : List String),
      (attribution docs iid idx claimed).1.map
          (fun l => (l.interaction_id, l.document_id)) =
        (claimed.filterMap
            (fun n => (findDocument docs n).map Document.id)).map
          (fun i => (iid, i))
  | _, [] => rfl
  | idx, name :: rest => by
    have ih := attribution_keys docs iid (idx + 1) rest
    simp only [attribution]
    cases h : findDocument docs name with
    | none => simp [h, ih]
    | some d => simp [h, ih]

theorem keysNodup_iff (ks : List (Nat × Nat)) :
    keysNodup ks = true ↔ ks.Nodup := by
  induction ks with
  | nil => simp [keysNodup]
  | cons k ks ih => simp [keysNodup, ih, List.nodup_cons]

theorem matched_ids_nodup (docs : List Document) (claimed : List String)
    (hdocs : (docs.map Document.id).Nodup)
    (hclaim : (claimed.filter
      (fun n => (findDocument docs n).isSome)).Nodup) :
    (claimed.filterMap
      (fun n => (findDocument docs n).map Document.id)).Nodup := by
  induction claimed with
  | nil => simp
  | cons n rest ih =>
    cases h : findDocument docs n with
    | none =>
      rw [List.filter_cons] at hclaim
      simp only [h, Option.isSome_none] at hclaim
      simp only [List.filterMap_cons, h, Option.map_none']
      exact ih (by simpa using hclaim)
    | some d =>
      rw [List.filter_cons] at hclaim
      simp only [h, Option.isSome_some, if_pos] at hclaim
      rw [List.nodup_cons] at hclaim
      simp only [List.filterMap_cons, h, Option.map_some']
      rw [List.nodup_cons]
      refine ⟨?_, ih hclaim.2⟩
      intro hmem
      rw [List.mem_filterMap] at hmem
      obtain ⟨n2, hn2, hmap⟩ := hmem
      cases h2 : findDocument docs n2 with
      | none => rw [h2] at hmap; simp at hmap
      | some d2 =>
        rw [h2] at hmap
        simp only [Option.map_some', Option.some.injEq] at hmap
        obtain ⟨hd2mem, hd2name⟩ := findDocument_spec docs n2 d2 h2
        obtain ⟨hdmem, hdname⟩ := findDocument_spec docs n d h
        have hd : d2 = d :=
          List.inj_on_of_nodup_map hdocs hd2mem hdmem hmap
        have hnn : n ∈ rest.filter
            (fun m => (findDocument docs m).isSome) := by
          rw [List.mem_filter]
          have : n2 = n := by rw [← hd2name, hd, hdname]
          subst this
          exact ⟨hn2, by simp [h2]⟩
        exact hclaim.1 hnn

/-! ## Theorems for the retrieval tool claims -/

/-- Claim C5: whenever the vector index reports empty, `retrieve_context`
returns the fixed advisory string as an ordinary value and performs no
similarity search. -/
theorem retrieve_empty_store_advisory (vs : VectorStore)
    (search : String → Nat → List RetrievedDoc) (query : String)
    (h : vs.is_empty = true) :
    retrieveContext vs search query = ⟨emptyStoreAdvisory, []⟩ := by
  simp [retrieveContext, h]

/-- Witness for C5: the concrete empty store. -/
theorem retrieve_empty_store_advisory_witness :
    (VectorStore.is_empty ⟨[]⟩) = true ∧
    retrieveContext ⟨[]⟩ (fun _ _ => []) "q" = ⟨emptyStoreAdvisory, []⟩ :=
  ⟨rfl, retrieve_empty_store_advisory ⟨[]⟩ (fun _ _ => []) "q" rfl⟩

/-- Claim C6: a chunk whose source metadata is any storage path ending in
filename `f` serializes to a block whose marker line is exactly
`"Source: " ++ f`, with `f` free of path separators, followed by the
chunk text; and in the non-empty case the blocks of all hits are joined
with a blank-line separator. -/
theorem retrieval_block_source_marker (d : RetrievedDoc) (s f : String)
    (pre : List Char) (hs : d.source = some s)
    (hsplit : s.data = pre ++ '/' :: f.data ∨ s = f)
    (hf : '/' ∉ f.data) :
    serializeDoc d = "Source: " ++ f ++ "\nContent: " ++ d.page_content ∧
    '/' ∉ (sourceFilename d).data ∧
    ∀ (vs : VectorStore) (search : String → Nat → List RetrievedDoc)
      (q : String), vs.is_empty = false →
      (retrieveContext vs search q).output =
        String.intercalate "\n\n" ((search q 4).map serializeDoc) := by
  have hlp : sourceFilename d = f := by
    unfold sourceFilename
    rw [hs]
    simp only [Option.getD_some]
    rcases hsplit with h | h
    · exact lastPart_eq s f pre h hf
    · rw [h]; exact lastPart_no_slash f hf
  refine ⟨?_, ?_, ?_⟩
  · unfold serializeDoc
    rw [hlp]
  · rw [hlp]; exact hf
  · intro vs search q hvs
    simp [retrieveContext, hvs]

/-- Witness for C6: `report.pdf` stored at `docs/report.pdf`. -/
theorem retrieval_block_source_marker_witness :
    ("docs/report.pdf" : String).data =
      ("docs" : String).data ++ '/' :: ("report.pdf" : String).data ∧
    '/' ∉ ("report.pdf" : String).data ∧
    serializeDoc ⟨some "docs/report.pdf", "text"⟩ =
      "Source: report.pdf\nContent: text" := by
  refine ⟨by decide, by decide, ?_⟩
  have h := (retrieval_block_source_marker ⟨some "docs/report.pdf", "text"⟩
    "docs/report.pdf" "report.pdf" ("docs" : String).data rfl
    (Or.inl (by decide)) (by decide)).1
  rw [h]
  rfl

/-- Claim C10: a chunk with no `source` metadata at all still serializes,
with the literal fallback filename `unknown` in the marker, so the
retrieval serialization is total over arbitrary metadata. -/
theorem retrieval_missing_source_fallback (d : RetrievedDoc)
    (h : d.source = none) :
    serializeDoc d = "Source: unknown\nContent: " ++ d.page_content := by
  unfold serializeDoc sourceFilename
  rw [h]
  have hu : lastPart ((none : Option String).getD "unknown") = "unknown" := by
    decide
  rw [hu]
  rfl

/-- Witness for C10: a concrete chunk without source metadata. -/
theorem retrieval_missing_source_fallback_witness :
    serializeDoc ⟨none, "hello"⟩ = "Source: unknown\nContent: hello" := by
  rw [retrieval_missing_source_fallback ⟨none, "hello"⟩ rfl]
  rfl

/-! ## Theorems for the chat route claims -/

/-- Claim C7: when the agent invocation raises, the route wraps the
original cause into the single surfaced error, commits nothing, and
leaves the persistent state unchanged, so the whole turn is safe to
retry. -/
theorem message_agent_failure_no_persistence (db : ChatDB) (q e : String)
    (nid : Nat) :
    (message db q (.error e) nid).1 =
      .error (.agentFailure ("Agent failed to process query: " ++ e)) ∧
    (message db q (.error e) nid).2 = [] ∧
    finalState db (message db q (.error e) nid).2 = db :=
  ⟨rfl, rfl, rfl⟩

/-- Claim C1 (code evaluated at the failing input): with `a.pdf` stored
as Document id 1, the claimed list `["a.pdf", "a.pdf"]` makes the
attribution loop build two `InteractionDocument` rows with the same
composite key `(1, 1)` and accept the filename twice — the repeat is not
dropped — so the commit violates the composite primary key of
`models.py` and the turn dies with an integrity error after the
`Interaction` was already committed on its own. -/
theorem message_duplicate_claim_integrity_bug :
    attribution [⟨1, "a.pdf"⟩] 1 1 ["a.pdf", "a.pdf"] =
      ([⟨1, 1, 1⟩, ⟨1, 1, 2⟩], ["a.pdf", "a.pdf"]) ∧
    message ⟨[⟨1, "a.pdf"⟩], [], []⟩ "q" (.ok ⟨"ans", ["a.pdf", "a.pdf"]⟩) 1 =
      (.error .integrityError, [⟨[⟨1, "a.pdf"⟩], [⟨1, "q", "ans"⟩], []⟩]) :=
  ⟨rfl, rfl⟩

/-- Counterexample to claim C2: on a successful attribution the route's
trace of committed states starts with a state that already holds the
`Interaction` row but none of its usage rows — the `Interaction` is
committed by itself before the `UsageLink` rows are committed. -/
theorem message_commit_split_counterexample :
    (message ⟨[⟨1, "a.pdf"⟩], [], []⟩ "q" (.ok ⟨"ans", ["a.pdf"]⟩) 1).2 =
      [⟨[⟨1, "a.pdf"⟩], [⟨1, "q", "ans"⟩], []⟩,
       ⟨[⟨1, "a.pdf"⟩], [⟨1, "q", "ans"⟩], [⟨1, 1, 1⟩]⟩] := by
  decide

/-- Claim C2 (amended): whenever any documents are claimed, the message
operation first commits the `Interaction` row on its own — the first
committed state holds the new `Interaction` and no new usage rows — and
only a later, separate commit adds the `UsageLink` rows. -/
theorem message_interaction_committed_before_links (db : ChatDB)
    (q : String) (out : OutputSchema) (nid : Nat)
    (h : out.used_documents ≠ []) :
    (message db q (.ok out) nid).2.head? =
      some { db with interactions := db.interactions ++ [⟨nid, q, out.answer⟩] } := by
  have hne : out.used_documents.isEmpty = false := by
    cases hl : out.used_documents with
    | nil => exact absurd hl h
    | cons a as => rfl
  simp only [message, hne, Bool.false_eq_true, if_false]
  split
  · rfl
  · rfl

/-- Witness for the amended C2. -/
theorem message_interaction_committed_before_links_witness :
    (message ⟨[], [], []⟩ "q" (.ok ⟨"a", ["x.pdf"]⟩) 1).2.head? =
      some { (⟨[], [], []⟩ : ChatDB) with
        interactions := (⟨[], [], []⟩ : ChatDB).interactions ++ [⟨1, "q", "a"⟩] } :=
  message_interaction_committed_before_links ⟨[], [], []⟩ "q" ⟨"a", ["x.pdf"]⟩ 1
    (by decide)

/-- Counterexample to claim C3: a claimed list that does contain an
unmatched name (`ghost.pdf`) but repeats the matched one — the turn does
not succeed with the matched names accepted; it dies with an integrity
error. -/
theorem message_duplicate_matched_claim_fails :
    (message ⟨[⟨1, "a.pdf"⟩], [], []⟩ "q"
        (.ok ⟨"ans", ["a.pdf", "a.pdf", "ghost.pdf"]⟩) 1).1 =
      .error .integrityError :=
  rfl

/-- Claim C3 (amended): for a claimed list in which no matched filename
repeats (over a store with distinct document ids and a fresh interaction
id), the message operation accepts exactly the matched names in claim
order, every written `UsageLink` stems from a matched name — none from
an unmatched one — and the turn succeeds with a normal response; the
unmatched names are discarded without surfacing an error. -/
theorem message_unmatched_claims_discarded (db : ChatDB) (q ans : String)
    (claimed : List String) (nid : Nat)
    (hdb : ∀ l ∈ db.links, l.interaction_id ≠ nid)
    (hdocs : (db.documents.map Document.id).Nodup)
    (hclaim : (claimed.filter
      (fun n => (findDocument db.documents n).isSome)).Nodup) :
    (message db q (.ok ⟨ans, claimed⟩) nid).1 =
      .ok ⟨ans, nid,
        claimed.filter (fun n => (findDocument db.documents n).isSome)⟩ ∧
    ∀ l ∈ (finalState db (message db q (.ok ⟨ans, claimed⟩) nid).2).links,
      l.interaction_id = nid →
      ∃ n ∈ claimed, ∃ d, findDocument db.documents n = some d ∧
        l.document_id = d.id := by
  cases hl : claimed with
  | nil =>
    subst hl
    refine ⟨rfl, ?_⟩
    intro l hmem heq
    exact absurd heq (hdb l hmem)
  | cons a as =>
    subst hl
    have hkeys := attribution_keys db.documents nid 1 (a :: as)
    have hids := matched_ids_nodup db.documents (a :: as) hdocs hclaim
    have hinj : Function.Injective (fun i : Nat => (nid, i)) := by
      intro i j hij
      simpa using hij
    have hnews : ((attribution db.documents nid 1 (a :: as)).1.map
        (fun l => (l.interaction_id, l.document_id))).Nodup := by
      rw [hkeys]
      exact hids.map hinj
    have hall : ∀ k ∈ (attribution db.documents nid 1 (a :: as)).1.map
        (fun l => (l.interaction_id, l.document_id)),
        k ∉ db.links.map (fun l => (l.interaction_id, l.document_id)) := by
      intro k hk hmem
      rw [List.mem_map] at hk hmem
      obtain ⟨l1, hl1, hk1⟩ := hk
      obtain ⟨l2, hl2, hk2⟩ := hmem
      have h1 := (attribution_links_sound db.documents nid 1 (a :: as) l1 hl1).1
      apply hdb l2 hl2
      have hpair : (l2.interaction_id, l2.document_id) =
          (l1.interaction_id, l1.document_id) := hk2.trans hk1.symm
      have : l2.interaction_id = l1.interaction_id := congrArg Prod.fst hpair
      rw [this, h1]
    have hOK : insertOK (db.links.map fun l => (l.interaction_id, l.document_id))
        ((attribution db.documents nid 1 (a :: as)).1.map
          (fun l => (l.interaction_id, l.document_id))) = true := by
      unfold insertOK
      rw [Bool.and_eq_true]
      refine ⟨by rw [keysNodup_iff]; exact hnews, ?_⟩
      rw [List.all_eq_true]
      intro k hk
      simp only [decide_eq_true_eq]
      exact hall k hk
    constructor
    · simp only [message, List.isEmpty_cons, Bool.false_eq_true, if_false,
        hOK, if_true]
      rw [attribution_accepted]
    · simp only [message, List.isEmpty_cons, Bool.false_eq_true, if_false,
        hOK, if_true, finalState, List.getLastD]
      intro l hmem heq
      rcases List.mem_append.mp hmem with hmem | hmem
      · exact absurd heq (hdb l hmem)
      · obtain ⟨_, n, hn, hrest⟩ :=
          attribution_links_sound db.documents nid 1 (a :: as) l hmem
        exact ⟨n, hn, hrest⟩

/-- Witness for the amended C3: `["a.pdf", "ghost.pdf"]` over a store
holding only `a.pdf`. -/
theorem message_unmatched_claims_discarded_witness :
    (message ⟨[⟨1, "a.pdf"⟩], [], []⟩ "q" (.ok ⟨"a", ["a.pdf", "ghost.pdf"]⟩) 1).1 =
      .ok ⟨"a", 1, (["a.pdf", "ghost.pdf"].filter
        (fun n => (findDocument [⟨1, "a.pdf"⟩] n).isSome))⟩ ∧
    ∀ l ∈ (finalState ⟨[⟨1, "a.pdf"⟩], [], []⟩
        (message ⟨[⟨1, "a.pdf"⟩], [], []⟩ "q"
          (.ok ⟨"a", ["a.pdf", "ghost.pdf"]⟩) 1).2).links,
      l.interaction_id = 1 →
      ∃ n ∈ ["a.pdf", "ghost.pdf"], ∃ d, findDocument [⟨1, "a.pdf"⟩] n = some d ∧
        l.document_id = d.id :=
  message_unmatched_claims_discarded ⟨[⟨1, "a.pdf"⟩], [], []⟩ "q" "a"
    ["a.pdf", "ghost.pdf"] 1 (by decide) (by decide) (by decide)

/-! ## Theorems for the conversation route claims -/

/-- Claim C8: for each of the four conversation operations, a missing
conversation id and an existing conversation owned by a different user
produce the very same `404 Conversation not found` error value, so the
caller cannot distinguish the two cases and no existence information
leaks. -/
theorem conversation_not_found_uniform (db : List Conversation)
    (cid : String) (uid : Nat) (history : String → List ChatMsg)
    (title : Option String) (now : Nat)
    (h : findConversation db cid = none ∨
      ∃ c, findConversation db cid = some c ∧ c.user_id ≠ uid) :
    getConversation db cid uid = .error conversationNotFound ∧
    getConversationMessages db cid uid history = .error conversationNotFound ∧
    deleteConversation db cid uid = .error conversationNotFound ∧
    updateConversation db cid uid title now = .error conversationNotFound := by
  rcases h with h | ⟨c, hc, hu⟩
  · exact ⟨by simp [getConversation, h],
      by simp [getConversationMessages, h],
      by simp [deleteConversation, h],
      by simp [updateConversation, h]⟩
  · exact ⟨by simp [getConversation, hc, hu],
      by simp [getConversationMessages, hc, hu],
      by simp [deleteConversation, hc, hu],
      by simp [updateConversation, hc, hu]⟩

/-- Witness for C8: an empty table (missing id) and a table whose only
`c1` row belongs to user 2, both queried by user 1, yield identical
errors for all four operations. -/
theorem conversation_not_found_uniform_witness :
    (getConversation [] "c1" 1 = .error conversationNotFound ∧
     getConversationMessages [] "c1" 1 (fun _ => []) =
       .error conversationNotFound ∧
     deleteConversation [] "c1" 1 = .error conversationNotFound ∧
     updateConversation [] "c1" 1 none 0 = .error conversationNotFound) ∧
    (getConversation [⟨"c1", 2, "t", 0⟩] "c1" 1 = .error conversationNotFound ∧
     getConversationMessages [⟨"c1", 2, "t", 0⟩] "c1" 1 (fun _ => []) =
       .error conversationNotFound ∧
     deleteConversation [⟨"c1", 2, "t", 0⟩] "c1" 1 =
       .error conversationNotFound ∧
     updateConversation [⟨"c1", 2, "t", 0⟩] "c1" 1 none 0 =
       .error conversationNotFound) :=
  ⟨conversation_not_found_uniform [] "c1" 1 (fun _ => []) none 0 (Or.inl rfl),
   conversation_not_found_uniform [⟨"c1", 2, "t", 0⟩] "c1" 1 (fun _ => []) none 0
     (Or.inr ⟨⟨"c1", 2, "t", 0⟩, rfl, by decide⟩)⟩

/-- Counterexample to claim C9: a history whose intermediate assistant
message both requests a tool call and carries non-empty content — the
route's filter keeps it, so the returned transcript does contain an
intermediate tool-call message, not only user turns and the final
answer. -/
theorem transcript_keeps_toolcall_with_content :
    transcript [.human "q",
      .ai "Let me search the documents." ["retrieve_context"],
      .tool "Source: a.pdf",
      .ai "final answer" []] =
      [⟨"user", "q"⟩, ⟨"assistant", "Let me search the documents."⟩,
       ⟨"assistant", "final answer"⟩] :=
  rfl

/-- Claim C9 (amended): for an owned conversation, the returned
transcript contains exactly the user messages and the assistant
messages with non-empty content, in history order (it refines
`transcriptSpec`); every tool-result message, and every assistant
message with empty content (the typical pure tool-call step), is
filtered out, and every surviving entry is a user or assistant turn —
but an intermediate assistant tool-call message with non-empty content
is kept. -/
theorem transcript_amended (db : List Conversation) (cid : String)
    (uid : Nat) (history : String → List ChatMsg) (c : Conversation)
    (hc : findConversation db cid = some c) (hu : c.user_id = uid) :
    getConversationMessages db cid uid history =
      .ok (transcriptSpec (history cid)) ∧
    ∀ e ∈ transcriptSpec (history cid),
      e.role = "user" ∨ e.role = "assistant" := by
  have heq : ∀ h : List ChatMsg, transcript h = transcriptSpec h := by
    intro h
    induction h with
    | nil => rfl
    | cons m rest ih =>
      cases m with
      | human s => simp [transcript, transcriptSpec, ih,
          transcriptSpec, List.filterMap_cons]
      | ai s tc =>
        by_cases hs : s = ""
        · simp [transcript, transcriptSpec, ih, hs, List.filterMap_cons]
        · simp [transcript, transcriptSpec, ih, hs, List.filterMap_cons]
      | tool s => simp [transcript, transcriptSpec, ih, List.filterMap_cons]
  constructor
  · simp [getConversationMessages, hc, hu, heq]
  · intro e he
    unfold transcriptSpec at he
    rw [List.mem_filterMap] at he
    obtain ⟨m, _, hmap⟩ := he
    cases m with
    | human s =>
      simp only [Option.some.injEq] at hmap
      left
      rw [← hmap]
    | ai s tc =>
      by_cases hs : s = ""
      · rw [hs] at hmap
        simp at hmap
      · simp only [hs, if_false, Option.some.injEq] at hmap
        right
        rw [← hmap]
    | tool s => simp at hmap

/-- Witness for the amended C9: a concrete owned conversation with a
history containing both kinds of intermediate messages. -/
theorem transcript_amended_witness :
    getConversationMessages [⟨"c1", 1, "t", 0⟩] "c1" 1
        (fun _ => [.human "q", .ai "" ["retrieve_context"],
          .tool "Source: a.pdf", .ai "ans" []]) =
      .ok (transcriptSpec [.human "q", .ai "" ["retrieve_context"],
        .tool "Source: a.pdf", .ai "ans" []]) ∧
    ∀ e ∈ transcriptSpec [ChatMsg.human "q", .ai "" ["retrieve_context"],
        .tool "Source: a.pdf", .ai "ans" []],
      e.role = "user" ∨ e.role = "assistant" :=
  transcript_amended [⟨"c1", 1, "t", 0⟩] "c1" 1
    (fun _ => [.human "q", .ai "" ["retrieve_context"],
      .tool "Source: a.pdf", .ai "ans" []]) ⟨"c1", 1, "t", 0⟩ rfl rfl

/-! ## Lemmas about the upload first pass and processing cleanup -/

theorem firstPass_count : ∀ (db : List Document) (nid : Nat)
    (files : List UploadFile),
    (firstPass db nid files).1.length + (firstPass db nid files).2.length =
      files.length
  | _, _, [] => rfl
  | db, nid, f :: fs => by
    simp only [firstPass]
    by_cases h1 : f.content_type = "application/pdf"
    · rw [if_pos h1]
      by_cases h2 : ((db.map Document.filename).contains f.filename) = true
      · rw [if_pos h2]
        have ih := firstPass_count db nid fs
        simp only [List.length_cons]
        omega
      · rw [if_neg h2]
        have ih := firstPass_count (db ++ [⟨nid, f.filename⟩]) (nid + 1) fs
        simp only [List.length_cons]
        omega
    · rw [if_neg h1]
      have ih := firstPass_count db nid fs
      simp only [List.length_cons]
      omega

theorem firstPass_ids : ∀ (db : List Document) (nid : Nat)
    (files : List UploadFile),
    (firstPass db nid files).2.map Document.id =
      List.range' nid (firstPass db nid files).2.length
  | _, _, [] => rfl
  | db, nid, f :: fs => by
    simp only [firstPass]
    by_cases h1 : f.content_type = "application/pdf"
    · rw [if_pos h1]
      by_cases h2 : ((db.map Document.filename).contains f.filename) = true
      · rw [if_pos h2]
        exact firstPass_ids db nid fs
      · rw [if_neg h2]
        have ih := firstPass_ids (db ++ [⟨nid, f.filename⟩]) (nid + 1) fs
        simp only [List.map_cons, List.length_cons, ih, List.range'_succ]
    · rw [if_neg h1]
      exact firstPass_ids db nid fs

theorem firstPass_fresh : ∀ (db : List Document) (nid : Nat)
    (files : List UploadFile),
    ∀ d ∈ (firstPass db nid files).2,
      d.filename ∉ db.map Document.filename
  | _, _, [] => by intro d hd; simp [firstPass] at hd
  | db, nid, f :: fs => by
    intro d hd
    simp only [firstPass] at hd
    by_cases h1 : f.content_type = "application/pdf"
    · rw [if_pos h1] at hd
      by_cases h2 : ((db.map Document.filename).contains f.filename) = true
      · rw [if_pos h2] at hd
        exact firstPass_fresh db nid fs d hd
      · rw [if_neg h2] at hd
        rcases List.mem_cons.mp hd with hd | hd
        · subst hd
          intro hmem
          exact h2 (List.elem_iff.mpr hmem)
        · have := firstPass_fresh (db ++ [⟨nid, f.filename⟩]) (nid + 1) fs d hd
          intro hmem
          apply this
          rw [List.map_append]
          exact List.mem_append_left _ hmem
    · rw [if_neg h1] at hd
      exact firstPass_fresh db nid fs d hd

theorem firstPass_names_nodup : ∀ (db : List Document) (nid : Nat)
    (files : List UploadFile),
    ((firstPass db nid files).2.map Document.filename).Nodup
  | _, _, [] => by simp [firstPass]
  | db, nid, f :: fs => by
    simp only [firstPass]
    by_cases h1 : f.content_type = "application/pdf"
    · rw [if_pos h1]
      by_cases h2 : ((db.map Document.filename).contains f.filename) = true
      · rw [if_pos h2]
        exact firstPass_names_nodup db nid fs
      · rw [if_neg h2]
        simp only [List.map_cons, List.nodup_cons]
        refine ⟨?_, firstPass_names_nodup (db ++ [⟨nid, f.filename⟩]) (nid + 1) fs⟩
        intro hmem
        rw [List.mem_map] at hmem
        obtain ⟨d, hd, hname⟩ := hmem
        have hfresh := firstPass_fresh (db ++ [⟨nid, f.filename⟩]) (nid + 1) fs d hd
        apply hfresh
        rw [List.map_append, List.mem_append]
        right
        simp [hname]
    · rw [if_neg h1]
      exact firstPass_names_nodup db nid fs

theorem uploadResults_mem (process : String → Except String (List VectorChunk))
    (pending : List Document) (d : Document)
    (x : Except String (List VectorChunk)) :
    (d, x) ∈ uploadResults process pending ↔
      d ∈ pending ∧ process d.filename = x := by
  unfold uploadResults
  rw [List.mem_map]
  constructor
  · rintro ⟨a, ha, heq⟩
    have h1 : a = d := congrArg Prod.fst heq
    subst h1
    exact ⟨ha, congrArg Prod.snd heq⟩
  · rintro ⟨hd, hx⟩
    exact ⟨d, hd, by rw [hx]⟩

theorem okDocs_mem : ∀ (rs : List (Document × Except String (List VectorChunk)))
    (d : Document), d ∈ okDocs rs ↔ ∃ cs, (d, Except.ok cs) ∈ rs := by
  intro rs d
  unfold okDocs
  rw [List.mem_filterMap]
  constructor
  · rintro ⟨⟨d', x⟩, hmem, hmap⟩
    cases x with
    | ok cs =>
      simp only [Option.some.injEq] at hmap
      subst hmap
      exact ⟨cs, hmem⟩
    | error e => simp at hmap
  · rintro ⟨cs, hmem⟩
    exact ⟨(d, Except.ok cs), hmem, rfl⟩

theorem errEntries_mem (rs : List (Document × Except String (List VectorChunk)))
    (d : Document) (e : String) (h : (d, Except.error e) ∈ rs) :
    (⟨d.filename, "Failed to process PDF: " ++ e⟩ : FailedUpload) ∈
      errEntries rs := by
  unfold errEntries
  rw [List.mem_filterMap]
  exact ⟨(d, Except.error e), h, rfl⟩

theorem errIds_mem : ∀ (rs : List (Document × Except String (List VectorChunk)))
    (i : Nat), i ∈ errIds rs ↔
      ∃ d e, (d, Except.error e) ∈ rs ∧ d.id = i := by
  intro rs i
  unfold errIds
  rw [List.mem_filterMap]
  constructor
  · rintro ⟨⟨d, x⟩, hmem, hmap⟩
    cases x with
    | ok cs => simp at hmap
    | error e =>
      simp only [Option.some.injEq] at hmap
      exact ⟨d, e, hmem, hmap⟩
  · rintro ⟨d, e, hmem, hid⟩
    exact ⟨(d, Except.error e), hmem, by simpa using hid⟩

theorem okDocs_errEntries_length :
    ∀ rs : List (Document × Except String (List VectorChunk)),
      (okDocs rs).length + (errEntries rs).length = rs.length
  | [] => rfl
  | (d, x) :: rs => by
    have ih := okDocs_errEntries_length rs
    cases x with
    | ok cs =>
      simp only [okDocs, errEntries, List.filterMap_cons] at *
      simp only [List.length_cons]
      omega
    | error e =>
      simp only [okDocs, errEntries, List.filterMap_cons] at *
      simp only [List.length_cons]
      omega

theorem okChunks_mem (rs : List (Document × Except String (List VectorChunk)))
    (d : Document) (cs : List VectorChunk) (c : VectorChunk)
    (hm : (d, Except.ok cs) ∈ rs) (hc : c ∈ cs) : c ∈ okChunks rs := by
  unfold okChunks
  rw [List.mem_flatten]
  refine ⟨cs, ?_, hc⟩
  rw [List.mem_filterMap]
  exact ⟨(d, Except.ok cs), hm, rfl⟩

/-- Claim C4: every per-file ingestion failure is recovered
individually.  Over any batch and any per-file processing outcome (with
fresh primary keys): (1) every uploaded file lands in exactly one of the
`successful_uploads` / `failed_uploads` buckets of the structured
response — the batch is never aborted; (2) a successfully processed
file's `Document` row is committed and its chunks are in the vector
index, even when other files failed; (3) a file whose processing failed
has no `Document` row under its filename in the final state — only that
file was rolled back; (4) previously committed `Document` rows are
untouched; (5) each processing failure is itemized in `failed_uploads`
with its error. -/
theorem upload_per_file_recovery (db : List Document) (vs : List VectorChunk)
    (files : List UploadFile)
    (process : String → Except String (List VectorChunk)) (nid : Nat)
    (hdb : ∀ d ∈ db, d.id < nid) :
    (uploadDocuments db vs files process nid).response.successful_uploads.length +
      (uploadDocuments db vs files process nid).response.failed_uploads.length =
      files.length ∧
    (∀ d ∈ (uploadDocuments db vs files process nid).response.successful_uploads,
      d ∈ (uploadDocuments db vs files process nid).documents ∧
      ∀ cs, process d.filename = .ok cs →
        ∀ c ∈ cs, c ∈ (uploadDocuments db vs files process nid).chunks) ∧
    (∀ d ∈ (firstPass db nid files).2, ∀ e, process d.filename = .error e →
      ∀ d2 ∈ (uploadDocuments db vs files process nid).documents,
        d2.filename ≠ d.filename) ∧
    (∀ d ∈ db, d ∈ (uploadDocuments db vs files process nid).documents) ∧
    (∀ d ∈ (firstPass db nid files).2, ∀ e, process d.filename = .error e →
      (⟨d.filename, "Failed to process PDF: " ++ e⟩ : FailedUpload) ∈
        (uploadDocuments db vs files process nid).response.failed_uploads) := by
  by_cases hp : (firstPass db nid files).2.isEmpty = true
  · have hpe : (firstPass db nid files).2 = [] := by
      rwa [List.isEmpty_iff] at hp
    have hcount := firstPass_count db nid files
    rw [hpe] at hcount
    simp only [uploadDocuments, hp, if_true]
    refine ⟨by simpa using hcount, by simp, ?_, fun d hd => hd, ?_⟩
    · rw [hpe]; simp
    · rw [hpe]; simp
  · have hids := firstPass_ids db nid files
    have hidNodup : ((firstPass db nid files).2.map Document.id).Nodup := by
      rw [hids]; exact List.nodup_range' _ _ _ Nat.one_pos
    have hnames := firstPass_names_nodup db nid files
    have hcount := firstPass_count db nid files
    have hlen : (okDocs (uploadResults process (firstPass db nid files).2)).length +
        (errEntries (uploadResults process (firstPass db nid files).2)).length =
        (firstPass db nid files).2.length := by
      rw [okDocs_errEntries_length]
      unfold uploadResults
      rw [List.length_map]
    have hkeep : ∀ d ∈ (firstPass db nid files).2,
        (∀ e, process d.filename ≠ .error e) →
        d.id ∉ errIds (uploadResults process (firstPass db nid files).2) := by
      intro d hdP hne hmem
      rw [errIds_mem] at hmem
      obtain ⟨d', e, hmem', hid⟩ := hmem
      rw [uploadResults_mem] at hmem'
      have hdd : d' = d :=
        List.inj_on_of_nodup_map hidNodup hmem'.1 hdP hid
      subst hdd
      exact hne e hmem'.2
    simp only [uploadDocuments, hp, Bool.false_eq_true, if_false]
    refine ⟨?_, ?_, ?_, ?_, ?_⟩
    · simp only [List.length_append]
      omega
    · intro d hd
      rw [okDocs_mem] at hd
      obtain ⟨cs0, hmem⟩ := hd
      rw [uploadResults_mem] at hmem
      obtain ⟨hdP, hproc⟩ := hmem
      constructor
      ·
        rw [List.mem_filter]
        refine ⟨List.mem_append_right _ hdP, ?_⟩
        have hnm : d.id ∉ errIds (uploadResults process (firstPass db nid files).2) := by
          apply hkeep d hdP
          intro e he
          rw [hproc] at he
          exact Except.noConfusion he
        simp [hnm]
      · intro cs hcs c hcc
        have hcs0 : cs = cs0 := by
          rw [hproc] at hcs
          exact (Except.ok.inj hcs).symm
        rw [List.mem_append]
        right
        apply okChunks_mem _ d cs0 c _ (hcs0 ▸ hcc)
        rw [uploadResults_mem]
        exact ⟨hdP, hproc⟩
    · intro d hdP e hproc d2 hd2 heq
      rw [List.mem_filter] at hd2
      obtain ⟨hd2mem, hd2keep⟩ := hd2
      have hdel : d.id ∈ errIds (uploadResults process (firstPass db nid files).2) := by
        rw [errIds_mem]
        refine ⟨d, e, ?_, rfl⟩
        rw [uploadResults_mem]
        exact ⟨hdP, hproc⟩
      rcases List.mem_append.mp hd2mem with hd2db | hd2P
      · apply firstPass_fresh db nid files d hdP
        rw [List.mem_map]
        exact ⟨d2, hd2db, heq⟩
      · have hdd : d2 = d :=
          List.inj_on_of_nodup_map hnames hd2P hdP heq
        subst hdd
        simp [hdel] at hd2keep
    · intro d hd
      rw [List.mem_filter]
      refine ⟨List.mem_append_left _ hd, ?_⟩
      have hnm : d.id ∉ errIds (uploadResults process (firstPass db nid files).2) := by
        intro hmem
        rw [errIds_mem] at hmem
        obtain ⟨d', e, hmem', hid⟩ := hmem
        rw [uploadResults_mem] at hmem'
        have hge : nid ≤ d'.id := by
          have : d'.id ∈ (firstPass db nid files).2.map Document.id :=
            List.mem_map.mpr ⟨d', hmem'.1, rfl⟩
          rw [hids] at this
          exact (List.mem_range'_1.mp this).1
        have := hdb d hd
        omega
      simp [hnm]
    · intro d hdP e hproc
      rw [List.mem_append]
      right
      apply errEntries_mem
      rw [uploadResults_mem]
      exact ⟨hdP, hproc⟩

/-- Witness for C4: two PDFs where the first indexes fine and the second
fails to embed — the first's row and chunk survive, the second's row is
rolled back, both are itemized. -/
theorem upload_per_file_recovery_witness :
    (uploadDocuments [] [] uploadFilesW uploadOracleW 1).response.successful_uploads.length +
      (uploadDocuments [] [] uploadFilesW uploadOracleW 1).response.failed_uploads.length =
      uploadFilesW.length ∧
    (∀ d ∈ (uploadDocuments [] [] uploadFilesW uploadOracleW 1).response.successful_uploads,
      d ∈ (uploadDocuments [] [] uploadFilesW uploadOracleW 1).documents ∧
      ∀ cs, uploadOracleW d.filename = .ok cs →
        ∀ c ∈ cs, c ∈ (uploadDocuments [] [] uploadFilesW uploadOracleW 1).chunks) ∧
    (∀ d ∈ (firstPass [] 1 uploadFilesW).2, ∀ e, uploadOracleW d.filename = .error e →
      ∀ d2 ∈ (uploadDocuments [] [] uploadFilesW uploadOracleW 1).documents,
        d2.filename ≠ d.filename) ∧
    (∀ d ∈ ([] : List Document),
      d ∈ (uploadDocuments [] [] uploadFilesW uploadOracleW 1).documents) ∧
    (∀ d ∈ (firstPass [] 1 uploadFilesW).2, ∀ e, uploadOracleW d.filename = .error e →
      (⟨d.filename, "Failed to process PDF: " ++ e⟩ : FailedUpload) ∈
        (uploadDocuments [] [] uploadFilesW uploadOracleW 1).response.failed_uploads) :=
  upload_per_file_recovery [] [] uploadFilesW uploadOracleW 1 (by simp)

end Celeritas
